import Mathlib

/-!
Verification of the odecast equation/IVP core against its source.

The development shallowly embeds the Python modules `symbols.py`,
`validate.py`, `equation.py`, `api.py` and `backends/sympy_backend.py`.
Python object identity is modelled by explicit allocation identifiers
threaded through a fresh-name counter; Python `dict`s are modelled as
association lists with replace-on-collision insertion; Python exceptions
are modelled by `Except` with one constructor per exception class.
-/

namespace Odecast

/-- A `Derivative` object of `symbols.py`: it stores a reference to its
variable (modelled by the variable's identity `varId`) and an integer
`order`.  `objId` is the Python object identity of the `Derivative`
object itself, used to express aliasing facts about the per-variable
derivative cache; structural equality (`__eq__`) ignores it. -/
structure Derivative where
  varId : Nat
  order : Int
  objId : Nat
  deriving DecidableEq, Repr

/-- A `Variable` object of `symbols.py`: `id` is its Python object
identity (`__eq__` and `__hash__` are identity-based), `name` and
`intentOrder` mirror the `name` and `intent_order` attributes, and
`derivCache` mirrors the `_derivatives` dict keyed by derivative order. -/
structure Variable where
  id : Nat
  name : String
  intentOrder : Option Int
  derivCache : List (Int × Derivative)
  deriving DecidableEq, Repr

/-- Lookup in the `_derivatives` dict of a variable. -/
def cacheLookup (n : Int) : List (Int × Derivative) → Option Derivative
  | [] => none
  | (m, d) :: rest => if m = n then some d else cacheLookup n rest

/-- `Variable.d` from `symbols.py`: return the cached `Derivative(self, n)`
if `n` is already a key of `_derivatives`, otherwise allocate a fresh
`Derivative(self, n)` (fresh object identity `ctr`), store it in the
cache, and return it.  The updated variable and counter are returned
explicitly, modelling the mutation of `_derivatives`. -/
def Variable.d (v : Variable) (n : Int) (ctr : Nat) : Derivative × Variable × Nat :=
  match cacheLookup n v.derivCache with
  | some d => (d, v, ctr)
  | none =>
      let d : Derivative := ⟨v.id, n, ctr⟩
      (d, { v with derivCache := v.derivCache ++ [(n, d)] }, ctr + 1)

/-- `Derivative.d` from `symbols.py`: `self.variable.d(self.order + n)`.
The variable object `v` is the one the derivative refers to (explicitly
passed since the embedding stores only its identity). -/
def Derivative.d (d : Derivative) (v : Variable) (n : Int) (ctr : Nat) :
    Derivative × Variable × Nat :=
  v.d (d.order + n) ctr

/-- The `var` factory of `api.py`/`symbols.py`: `return Variable(name, order)`.
Each call allocates a brand-new object, modelled by consuming the
fresh-identity counter. -/
def var (name : String) (order : Option Int) (ctr : Nat) : Variable × Nat :=
  (⟨ctr, name, order, []⟩, ctr + 1)

/-- Python `hash` of a `Variable`: `id(self)`. -/
def Variable.pyHash (v : Variable) : Nat :=
  v.id

/-- The universe of symbolic objects over which Python `==` dispatches. -/
inductive SymObj where
  | varObj (v : Variable)
  | derivObj (d : Derivative)
  deriving DecidableEq, Repr

/-- Python `==` between variables and derivative references, following
`Variable.__eq__` (`self is other`, hence false against any
non-`Variable` and identity comparison between variables) and
`Derivative.__eq__` (`isinstance(other, Derivative) and self.variable is
other.variable and self.order == other.order`). -/
def pyEq : SymObj → SymObj → Bool
  | .varObj a, .varObj b => a.id == b.id
  | .varObj _, .derivObj _ => false
  | .derivObj _, .varObj _ => false
  | .derivObj a, .derivObj b => a.varId == b.varId && a.order == b.order

/-- The expression AST of `symbols.py`: leaves are numeric constants,
variables and derivative references; `node` is the `Expression` class
with fields `operator`, `left`, `right`. -/
inductive ExprTree where
  | ofConst (c : Rat)
  | ofVar (v : Variable)
  | ofDeriv (d : Derivative)
  | node (operator : String) (left : ExprTree) (right : ExprTree)
  deriving DecidableEq, Repr

/-- `__add__` of `Expression`, `Variable` and `Derivative`: all three
return `Expression("+", self, other)`.  (`__radd__` likewise returns
`Expression("+", other, self)`, which is `add` with swapped operands.) -/
def ExprTree.add (a b : ExprTree) : ExprTree :=
  .node "+" a b

/-- `__sub__`: `Expression("-", self, other)`. -/
def ExprTree.sub (a b : ExprTree) : ExprTree :=
  .node "-" a b

/-- `__mul__`: `Expression("*", self, other)`. -/
def ExprTree.mul (a b : ExprTree) : ExprTree :=
  .node "*" a b

/-- `__truediv__`: `Expression("/", self, other)`. -/
def ExprTree.div (a b : ExprTree) : ExprTree :=
  .node "/" a b

/-- The `operator` field of an `Expression` node (`none` on leaves). -/
def ExprTree.operatorOf : ExprTree → Option String
  | .node op _ _ => some op
  | _ => none

/-- The `left` field of an `Expression` node (`none` on leaves). -/
def ExprTree.leftOf : ExprTree → Option ExprTree
  | .node _ l _ => some l
  | _ => none

/-- The `right` field of an `Expression` node (`none` on leaves). -/
def ExprTree.rightOf : ExprTree → Option ExprTree
  | .node _ _ r => some r
  | _ => none

/-- The `Eq` class of `equation.py`: an equation `lhs = rhs`
(`rhs` defaults to the constant `0` at call sites). -/
structure Equation where
  lhs : ExprTree
  rhs : ExprTree
  deriving DecidableEq, Repr

/-- The odecast exception taxonomy.  `missingInitialCondition` and
`overdeterminedConditions` carry the data interpolated into the message
by `validate.py` (variable name, offending level / sorted provided
levels, variable order).  `overdeterminedConditions` mirrors
`OverdeterminedConditionsError`, which `validate.py` imports and raises;
the class itself is absent from the supplied `errors.py` — Modelled from
the spec: §7 lists *OverdeterminedConditions* (extra / duplicate IVP
entries) as a typed `OdecastError`.  The remaining constructors mirror
the classes of `errors.py`. -/
inductive OdecastError where
  | missingInitialCondition (varName : String) (level : Int) (order : Int)
  | overdeterminedConditions (varName : String) (provided : List Int) (order : Int)
  | orderMismatch (msg : String)
  | compilationError (msg : String)
  | backendError (msg : String)
  deriving DecidableEq, Repr

/-- A key of the user-supplied IVP dict: a bare `Variable` or a
`Derivative` reference (the declared type of `validate.normalize_ivp`). -/
inductive IVPKey where
  | ofVar (v : Variable)
  | ofDeriv (d : Derivative)
  deriving DecidableEq, Repr

/-- The `(Variable, level)` key a given IVP key normalizes to; the
variable is represented by its identity, matching the identity-based
`__hash__`/`__eq__` used by the normalized dict. -/
def normKey : IVPKey → Nat × Int
  | .ofVar v => (v.id, 0)
  | .ofDeriv d => (d.varId, d.order)

/-- The identity of the variable an IVP key refers to. -/
def ivpKeyVarId (k : IVPKey) : Nat :=
  (normKey k).1

/-- Python `dict` assignment `d[k] = v`: replace the value if the key is
present, otherwise append the new binding. -/
def dictInsert {α : Type} (k : Nat × Int) (val : α) :
    List ((Nat × Int) × α) → List ((Nat × Int) × α)
  | [] => [(k, val)]
  | (k', v') :: rest =>
      if k' = k then (k, val) :: rest else (k', v') :: dictInsert k val rest

/-- `normalize_ivp` from `validate.py`: fold the IVP entries into a dict
keyed by `(variable identity, level)`; a bare variable is level 0, a
derivative contributes its order as the level.  (The `TypeError` branch
is unreachable here because keys are typed as `IVPKey`.) -/
def normalize_ivp {α : Type} (ivp : List (IVPKey × α)) : List ((Nat × Int) × α) :=
  ivp.foldl (fun acc kv => dictInsert (normKey kv.1) kv.2 acc) []

/-- The levels provided for the variable with identity `vid`
(`var_conditions.keys()` in `validate_ivp`, where entries are matched by
`var_key is var`). -/
def varConditionLevels {α : Type} (normalized : List ((Nat × Int) × α)) (vid : Nat) :
    List Int :=
  (normalized.filter (fun e => e.1.1 = vid)).map (fun e => e.1.2)

/-- `set(range(order))` for an integer order: the levels `0, …, order-1`
(empty for a non-positive order), listed in increasing order. -/
def requiredLevels (order : Int) : List Int :=
  (List.range order.toNat).map (fun i : Nat => (i : Int))

/-- `required_levels - provided_levels` of `validate_ivp`, listed in
increasing order (so its head is `min(missing_levels)`). -/
def missingLevels (provided : List Int) (order : Int) : List Int :=
  (requiredLevels order).filter (fun l => decide (l ∉ provided))

/-- `provided_levels - required_levels` of `validate_ivp`. -/
def extraLevels (provided : List Int) (order : Int) : List Int :=
  provided.filter (fun l => decide (l ∉ requiredLevels order))

/-- Insertion into a sorted list of levels. -/
def insertSorted (x : Int) : List Int → List Int
  | [] => [x]
  | y :: ys => if x ≤ y then x :: y :: ys else y :: insertSorted x ys

/-- `sorted(provided_levels)` as interpolated into the overdetermined
error message (the provided levels are pairwise distinct dict keys). -/
def sortLevels (l : List Int) : List Int :=
  l.foldr insertSorted []

/-- The per-variable body of the `validate_ivp` loop, as a function of
the variable's name, its provided levels and its order: raise
`MissingInitialConditionError` for the lowest missing required level if
one exists, else raise `OverdeterminedConditionsError` if any provided
level is outside the required range, else accept. -/
def checkVarLevels (name : String) (provided : List Int) (order : Int) :
    Except OdecastError Unit :=
  match missingLevels provided order with
  | l :: _ => .error (.missingInitialCondition name l order)
  | [] =>
      match extraLevels provided order with
      | [] => .ok ()
      | _ :: _ => .error (.overdeterminedConditions name (sortLevels provided) order)

/-- One iteration of the `validate_ivp` loop for the order-map entry
`(v, order)`. -/
def checkVar {α : Type} (normalized : List ((Nat × Int) × α)) (v : Variable)
    (order : Int) : Except OdecastError Unit :=
  checkVarLevels v.name (varConditionLevels normalized v.id) order

/-- The `validate_ivp` loop over the entries of the order map: the first
failing variable's error is raised. -/
def checkVars {α : Type} (normalized : List ((Nat × Int) × α)) :
    List (Variable × Int) → Except OdecastError Unit
  | [] => .ok ()
  | (v, order) :: rest =>
      match checkVar normalized v order with
      | .ok _ => checkVars normalized rest
      | .error e => .error e

/-- `validate_ivp` from `validate.py`: normalize the IVP dict and check
every variable of the order map.  The parameter `t0` is accepted and, as
in the source, never used. -/
def validate_ivp {α : Type} (orders : List (Variable × Int))
    (ivp : List (IVPKey × α)) (t0 : Rat) : Except OdecastError Unit :=
  let _ := t0
  checkVars (normalize_ivp ivp) orders

/-- A Python exception as seen by the `except Exception` handler of
`SymPyBackend.solve`: either a `BackendError` raised inside the `try`
block or any other `Exception` (a CAS failure, an import error, …). -/
inductive PyExc where
  | backendError (msg : String)
  | otherExc (msg : String)
  deriving DecidableEq, Repr

/-- `str(e)` for a caught exception. -/
def PyExc.message : PyExc → String
  | .backendError m => m
  | .otherExc m => m

/-- The `SolutionExpr` class of `backends/sympy_backend.py`: a mapping
from variables to closed-form expressions (of opaque CAS type `σ`)
together with the independent-variable symbol (opaque type `τ`). -/
structure SolutionExpr (σ τ : Type) where
  solutions : List (Variable × σ)
  tSymbol : τ

/-- The body of the `try` block of `SymPyBackend.solve`.  The CAS
collaborators are abstracted as fallible functions (spec §6): `eqSympy`
is `eq.sympy()`, `dsolve` bundles `sp.Function(var.name)(t_symbol)`,
`sp.dsolve` and the rhs extraction; `collectVariables` abstracts
`analyze.collect_variables`, which the module imports but which is
absent from the supplied `analyze.py`. -/
def sympySolveInner {σ τ : Type}
    (eqSympy : Equation → Except PyExc σ)
    (collectVariables : List Equation → Except PyExc (List Variable))
    (dsolve : σ → Variable → τ → Except PyExc σ)
    (equations : List Equation) (tSymbol : τ) : Except PyExc (SolutionExpr σ τ) :=
  match equations with
  | [eq] =>
      match eqSympy eq with
      | .error e => .error e
      | .ok sympyEq =>
          match collectVariables [eq] with
          | .error e => .error e
          | .ok vs =>
              match vs with
              | [v] =>
                  match dsolve sympyEq v tSymbol with
                  | .error e => .error e
                  | .ok solutionExpr => .ok ⟨[(v, solutionExpr)], tSymbol⟩
              | _ =>
                  .error (.backendError
                    "SymPy backend currently only supports single-variable equations")
  | _ =>
      .error (.backendError
        "SymPy backend currently only supports single equations")

/-- `SymPyBackend.solve`: run the `try` block; any caught exception is
re-raised as `BackendError("SymPy failed to solve the equation: …")`. -/
def sympyBackendSolve {σ τ : Type}
    (eqSympy : Equation → Except PyExc σ)
    (collectVariables : List Equation → Except PyExc (List Variable))
    (dsolve : σ → Variable → τ → Except PyExc σ)
    (equations : List Equation) (tSymbol : τ) : Except PyExc (SolutionExpr σ τ) :=
  match sympySolveInner eqSympy collectVariables dsolve equations tSymbol with
  | .ok s => .ok s
  | .error e =>
      .error (.backendError ("SymPy failed to solve the equation: " ++ e.message))

/-- An exception escaping the `solve` entry point of `api.py`: a typed
`OdecastError`, or one of the untyped `ValueError` /
`NotImplementedError` raises in `solve` itself. -/
inductive PyError where
  | odecast (e : OdecastError)
  | valueError (msg : String)
  | notImplementedError (msg : String)
  deriving DecidableEq, Repr

/-- The `equation` argument of `solve`: a single `Eq` or a list of
equations (`eqs = [equation] if isinstance(equation, Eq) else
list(equation)`). -/
inductive EquationInput where
  | single (e : Equation)
  | many (es : List Equation)
  deriving DecidableEq, Repr

/-- The list normalization at the top of `solve`. -/
def EquationInput.toList : EquationInput → List Equation
  | .single e => [e]
  | .many es => es

/-- What `solve` returns: a numeric `Solution` (opaque type, scipy path)
or a closed-form `SolutionExpr`-like object (opaque type, sympy path). -/
inductive SolveOutcome (Sol Sym : Type) where
  | numeric (s : Sol)
  | symbolic (s : Sym)

/-- The `backend == "scipy"` branch of `solve` (`api.py`, steps 2–6).
The pipeline stages missing from the supplied sources are abstracted as
fallible collaborators returning typed errors — Modelled from the spec:
`reduce.build_state_map` / `reduce.isolate_highest_derivatives` /
`reduce.make_rhs`, `compile.lambdify_rhs` / `compile.lambdify_jac`
(bundled in `lambdifyFns`), `scipy_ivp.convert_ivp_to_state_vector` and
`scipy_ivp.ScipyIVPBackend.solve` are absent from `src`; spec §4.3–§4.6
and §7 make each of them either succeed or fail with a typed
`OdecastError`.  `validate_ivp` is the real embedded validator. -/
def scipyPath {α σ ι ρ κ χ Sol Sym : Type}
    (buildStateMap : List (Variable × Int) → Except OdecastError σ)
    (isolateHighest : List Equation → List (Variable × Int) → Except OdecastError ι)
    (makeRhs : σ → ι → Except OdecastError ρ)
    (convertIvp : List (IVPKey × α) → σ → Except OdecastError χ)
    (lambdifyFns : ρ → Except OdecastError κ)
    (scipyRun : κ → χ → Rat → (Rat × Rat) → σ → Except OdecastError Sol)
    (eqs : List Equation) (orders : List (Variable × Int))
    (ivp : Option (List (IVPKey × α))) (tspan : Option (Rat × Rat)) :
    Except PyError (SolveOutcome Sol Sym) :=
  match ivp with
  | none => .error (.valueError "IVP conditions required for scipy backend")
  | some ivpDict =>
      match tspan with
      | none => .error (.valueError "tspan required for scipy backend")
      | some span =>
          let t0 := span.1
          match validate_ivp orders ivpDict t0 with
          | .error e => .error (.odecast e)
          | .ok _ =>
              match buildStateMap orders with
              | .error e => .error (.odecast e)
              | .ok mapping =>
                  match isolateHighest eqs orders with
                  | .error e => .error (.odecast e)
                  | .ok highestRules =>
                      match makeRhs mapping highestRules with
                      | .error e => .error (.odecast e)
                      | .ok fJac =>
                          match convertIvp ivpDict mapping with
                          | .error e => .error (.odecast e)
                          | .ok x0 =>
                              match lambdifyFns fJac with
                              | .error e => .error (.odecast e)
                              | .ok compiled =>
                                  match scipyRun compiled x0 t0 span mapping with
                                  | .error e => .error (.odecast e)
                                  | .ok sol => .ok (.numeric sol)

/-- The `solve` entry point of `api.py`.  Stage 1 (`collect_variables`,
`infer_orders`, `resolve_orders`) is abstracted as `analyzeFn` — Modelled
from the spec: those functions are absent from the supplied
`analyze.py`; spec §4.1 makes order analysis produce an order map or
fail with a typed order-mismatch error.  `sympyRun` abstracts
`SymPyBackend.solve`, whose failures are all `BackendError`s (proved
separately below).  Backend routing, the `ValueError` /
`NotImplementedError` raises and the `"auto"` try/except fallback follow
`api.py` line by line. -/
def solve {α σ ι ρ κ χ Sol Sym : Type}
    (analyzeFn : List Equation → Except OdecastError (List (Variable × Int)))
    (buildStateMap : List (Variable × Int) → Except OdecastError σ)
    (isolateHighest : List Equation → List (Variable × Int) → Except OdecastError ι)
    (makeRhs : σ → ι → Except OdecastError ρ)
    (convertIvp : List (IVPKey × α) → σ → Except OdecastError χ)
    (lambdifyFns : ρ → Except OdecastError κ)
    (scipyRun : κ → χ → Rat → (Rat × Rat) → σ → Except OdecastError Sol)
    (sympyRun : List Equation → Except OdecastError Sym)
    (equation : EquationInput) (ivp : Option (List (IVPKey × α)))
    (tspan : Option (Rat × Rat)) (backend : Option String) :
    Except PyError (SolveOutcome Sol Sym) :=
  let eqs := equation.toList
  match analyzeFn eqs with
  | .error e => .error (.odecast e)
  | .ok orders =>
      let backendName := backend.getD "scipy"
      if backendName = "auto" then
        match sympyRun eqs with
        | .ok s => .ok (.symbolic s)
        | .error _ =>
            scipyPath buildStateMap isolateHighest makeRhs convertIvp
              lambdifyFns scipyRun eqs orders ivp tspan
      else if backendName = "scipy" then
        scipyPath buildStateMap isolateHighest makeRhs convertIvp
          lambdifyFns scipyRun eqs orders ivp tspan
      else if backendName = "sympy" then
        match sympyRun eqs with
        | .ok s => .ok (.symbolic s)
        | .error e => .error (.odecast e)
      else if backendName = "scipy_bvp" then
        .error (.notImplementedError "BVP backend will be implemented in Milestone 5")
      else
        .error (.valueError ("Unknown backend: " ++ backendName))

/-! ## Theorems -/

/-- Helper: the scipy branch with an IVP and a tspan supplied either
returns a numeric solution or fails with a typed `OdecastError`. -/
theorem scipyPath_typed {α σ ι ρ κ χ Sol Sym : Type}
    (buildStateMap : List (Variable × Int) → Except OdecastError σ)
    (isolateHighest : List Equation → List (Variable × Int) → Except OdecastError ι)
    (makeRhs : σ → ι → Except OdecastError ρ)
    (convertIvp : List (IVPKey × α) → σ → Except OdecastError χ)
    (lambdifyFns : ρ → Except OdecastError κ)
    (scipyRun : κ → χ → Rat → (Rat × Rat) → σ → Except OdecastError Sol)
    (eqs : List Equation) (orders : List (Variable × Int))
    (ivp : List (IVPKey × α)) (span : Rat × Rat) :
    (∃ s, @scipyPath α σ ι ρ κ χ Sol Sym buildStateMap isolateHighest makeRhs
        convertIvp lambdifyFns scipyRun eqs orders (some ivp) (some span)
        = .ok (.numeric s))
    ∨ (∃ e, @scipyPath α σ ι ρ κ χ Sol Sym buildStateMap isolateHighest makeRhs
        convertIvp lambdifyFns scipyRun eqs orders (some ivp) (some span)
        = .error (.odecast e)) := by
  unfold scipyPath
  cases hv : validate_ivp orders ivp span.1 with
  | error e => exact Or.inr ⟨e, by simp [hv]⟩
  | ok _ =>
    cases hb : buildStateMap orders with
    | error e => exact Or.inr ⟨e, by simp [hv, hb]⟩
    | ok mapping =>
      cases hi : isolateHighest eqs orders with
      | error e => exact Or.inr ⟨e, by simp [hv, hb, hi]⟩
      | ok rules =>
        cases hr : makeRhs mapping rules with
        | error e => exact Or.inr ⟨e, by simp [hv, hb, hi, hr]⟩
        | ok fJac =>
          cases hc : convertIvp ivp mapping with
          | error e => exact Or.inr ⟨e, by simp [hv, hb, hi, hr, hc]⟩
          | ok x0 =>
            cases hl : lambdifyFns fJac with
            | error e => exact Or.inr ⟨e, by simp [hv, hb, hi, hr, hc, hl]⟩
            | ok compiled =>
              cases hs : scipyRun compiled x0 span.1 span mapping with
              | error e => exact Or.inr ⟨e, by simp [hv, hb, hi, hr, hc, hl, hs]⟩
              | ok sol => exact Or.inl ⟨sol, by simp [hv, hb, hi, hr, hc, hl, hs]⟩

/-- C4: a call of the `solve` entry point with a list-or-single equation
input, an initial-value mapping, a time span and the `'scipy'` backend
either produces a `Solution` or fails with a typed error of the
taxonomy; no untyped failure (`ValueError`, `NotImplementedError`, or an
import/attribute error — impossible here since the modelled pipeline
stages exist and return `Except OdecastError` results, spec §4/§7)
escapes, whatever the behaviour of the pipeline stages. -/
theorem solve_scipy_typed_outcome {α σ ι ρ κ χ Sol Sym : Type}
    (analyzeFn : List Equation → Except OdecastError (List (Variable × Int)))
    (buildStateMap : List (Variable × Int) → Except OdecastError σ)
    (isolateHighest : List Equation → List (Variable × Int) → Except OdecastError ι)
    (makeRhs : σ → ι → Except OdecastError ρ)
    (convertIvp : List (IVPKey × α) → σ → Except OdecastError χ)
    (lambdifyFns : ρ → Except OdecastError κ)
    (scipyRun : κ → χ → Rat → (Rat × Rat) → σ → Except OdecastError Sol)
    (sympyRun : List Equation → Except OdecastError Sym)
    (equation : EquationInput) (ivp : List (IVPKey × α)) (span : Rat × Rat) :
    (∃ s, solve analyzeFn buildStateMap isolateHighest makeRhs convertIvp
        lambdifyFns scipyRun sympyRun equation (some ivp) (some span)
        (some "scipy") = .ok (.numeric s))
    ∨ (∃ e, solve analyzeFn buildStateMap isolateHighest makeRhs convertIvp
        lambdifyFns scipyRun sympyRun equation (some ivp) (some span)
        (some "scipy") = .error (.odecast e)) := by
  unfold solve
  cases ha : analyzeFn equation.toList with
  | error e => exact Or.inr ⟨e, by simp [ha]⟩
  | ok orders =>
    have h := @scipyPath_typed α σ ι ρ κ χ Sol Sym buildStateMap isolateHighest
      makeRhs convertIvp lambdifyFns scipyRun equation.toList orders ivp span
    rcases h with ⟨s, hs⟩ | ⟨e, he⟩
    · exact Or.inl ⟨s, by simp [ha, Option.getD, hs]⟩
    · exact Or.inr ⟨e, by simp [ha, Option.getD, he]⟩

/-- C6: `SymPyBackend.solve` either returns a `SolutionExpr` or raises
`BackendError`: every failure of the `try` block — wrong equation count,
wrong variable count, or any exception out of a collaborator (CAS
conversion, `collect_variables`, `dsolve`) — is caught by the
`except Exception` handler and re-raised as a `BackendError`, and no
other exception type propagates out. -/
theorem sympy_backend_errors_typed {σ τ : Type}
    (eqSympy : Equation → Except PyExc σ)
    (collectVariables : List Equation → Except PyExc (List Variable))
    (dsolve : σ → Variable → τ → Except PyExc σ)
    (equations : List Equation) (tSymbol : τ) :
    (∃ s, sympyBackendSolve eqSympy collectVariables dsolve equations tSymbol
        = .ok s)
    ∨ (∃ m, sympyBackendSolve eqSympy collectVariables dsolve equations tSymbol
        = .error (.backendError m)) := by
  unfold sympyBackendSolve
  cases h : sympySolveInner eqSympy collectVariables dsolve equations tSymbol with
  | ok s => exact Or.inl ⟨s, by simp [h]⟩
  | error e =>
      exact Or.inr ⟨"SymPy failed to solve the equation: " ++ e.message, by simp [h]⟩

/-- C7: two variables created by separate calls of `var` — even with the
same name — compare unequal and hash differently, and in general two
variables are `==`-equal precisely when they are the same object
(identity, not name, is the equality key). -/
theorem var_identity_equality (name : String) (o₁ o₂ : Option Int) (ctr : Nat) :
    (pyEq (.varObj (var name o₁ ctr).1)
        (.varObj (var name o₂ (var name o₁ ctr).2).1) = false)
    ∧ (var name o₁ ctr).1.pyHash ≠ (var name o₂ (var name o₁ ctr).2).1.pyHash
    ∧ (∀ a b : Variable, pyEq (.varObj a) (.varObj b) = true ↔ a.id = b.id) := by
  refine ⟨?_, ?_, fun a b => ?_⟩
  · simp [var, pyEq]
  · simp [var, Variable.pyHash]
  · simp [pyEq]

/-- C8: building `a + b`, `a - b`, `a * b` or `a / b` returns a new
`Expression` node whose `operator`, `left` and `right` fields are the
operator symbol and the two operand objects themselves; the composition
is purely functional (the Python methods only construct
`Expression(op, self, other)` and never assign to the operands, which
the embedding reflects by returning a node holding the operand values
unchanged). -/
theorem expression_composition_functional (a b : ExprTree) :
    ((a.add b).operatorOf = some "+" ∧ (a.add b).leftOf = some a
      ∧ (a.add b).rightOf = some b)
    ∧ ((a.sub b).operatorOf = some "-" ∧ (a.sub b).leftOf = some a
      ∧ (a.sub b).rightOf = some b)
    ∧ ((a.mul b).operatorOf = some "*" ∧ (a.mul b).leftOf = some a
      ∧ (a.mul b).rightOf = some b)
    ∧ ((a.div b).operatorOf = some "/" ∧ (a.div b).leftOf = some a
      ∧ (a.div b).rightOf = some b) := by
  simp [ExprTree.add, ExprTree.sub, ExprTree.mul, ExprTree.div,
    ExprTree.operatorOf, ExprTree.leftOf, ExprTree.rightOf]

/-- A lookup miss followed by appending the searched key finds the new
binding. -/
theorem cacheLookup_append_self (n : Int) (d : Derivative)
    (l : List (Int × Derivative)) (h : cacheLookup n l = none) :
    cacheLookup n (l ++ [(n, d)]) = some d := by
  induction l with
  | nil => simp [cacheLookup]
  | cons p tl ih =>
      obtain ⟨m, d'⟩ := p
      by_cases hm : m = n
      · simp [cacheLookup, hm] at h
      · simp only [cacheLookup, List.cons_append, if_neg hm] at h ⊢
        exact ih h

/-- A successful lookup returns a binding of the dict. -/
theorem cacheLookup_mem (n : Int) (d : Derivative) (l : List (Int × Derivative))
    (h : cacheLookup n l = some d) : (n, d) ∈ l := by
  induction l with
  | nil => simp [cacheLookup] at h
  | cons p tl ih =>
      obtain ⟨m, d'⟩ := p
      simp only [cacheLookup] at h
      split at h
      · rename_i heq
        injection h with h'
        subst heq
        subst h'
        exact List.mem_cons_self _ _
      · exact List.mem_cons_of_mem _ (ih h)

/-- Well-formedness of the `_derivatives` cache of a variable: every
binding at key `n` is a derivative of this variable of order `n`.  This
holds for variables created by `var` (the cache starts empty) and is
preserved by `Variable.d`. -/
def cacheWF (v : Variable) : Prop :=
  ∀ p ∈ v.derivCache, p.2.varId = v.id ∧ p.2.order = p.1

instance (v : Variable) : Decidable (cacheWF v) := by
  unfold cacheWF
  infer_instance

/-- On a well-formed variable, `Variable.d` returns a derivative of that
variable with the requested order, does not change the variable's
identity or name, and preserves cache well-formedness. -/
theorem Variable.d_wf_spec (v : Variable) (n : Int) (ctr : Nat) (hwf : cacheWF v) :
    (v.d n ctr).1.varId = v.id ∧ (v.d n ctr).1.order = n
    ∧ (v.d n ctr).2.1.id = v.id ∧ (v.d n ctr).2.1.name = v.name
    ∧ cacheWF (v.d n ctr).2.1 := by
  cases hl : cacheLookup n v.derivCache with
  | some d =>
      have hmem := cacheLookup_mem n d v.derivCache hl
      have hd := hwf _ hmem
      simp only [Variable.d, hl]
      exact ⟨hd.1, hd.2, trivial, trivial, hwf⟩
  | none =>
      simp only [Variable.d, hl]
      refine ⟨trivial, trivial, trivial, trivial, ?_⟩
      intro p hp
      simp only [List.mem_append, List.mem_singleton] at hp
      rcases hp with hp | hp
      · exact hwf _ hp
      · subst hp
        exact ⟨rfl, rfl⟩

/-- Calling `d` again with the same order returns the identical cached
object and changes neither the variable nor the allocation counter. -/
theorem Variable.d_repeat (v : Variable) (n : Int) (ctr : Nat) :
    (v.d n ctr).2.1.d n (v.d n ctr).2.2
      = ((v.d n ctr).1, (v.d n ctr).2.1, (v.d n ctr).2.2) := by
  cases hl : cacheLookup n v.derivCache with
  | some d => simp [Variable.d, hl]
  | none =>
      simp only [Variable.d, hl]
      simp [Variable.d, cacheLookup_append_self n _ v.derivCache hl]

/-- C9: for a variable with a well-formed derivative cache, repeated
calls `v.d(n)` return the identical cached `Derivative` object without
touching any state, and chaining composes additively: after evaluating
`v.d(m).d(n)`, evaluating `v.d(m+n)` on the (updated) variable returns
that very same object — `v.d(m).d(n)` is `v.d(m+n)`. -/
theorem derivative_cache_identity_and_additivity
    (v : Variable) (ctr : Nat) (m n : Int)
    (hwf : cacheWF v) (_hm : 0 < m) (_hn : 0 < n)
    (d1 : Derivative) (v1 : Variable) (c1 : Nat)
    (h1 : v.d n ctr = (d1, v1, c1))
    (dm : Derivative) (vm : Variable) (cm : Nat)
    (h2 : v.d m ctr = (dm, vm, cm)) :
    v1.d n c1 = (d1, v1, c1)
    ∧ ∀ dmn v2 c2, dm.d vm n cm = (dmn, v2, c2) →
        v2.d (m + n) c2 = (dmn, v2, c2) := by
  constructor
  · have := Variable.d_repeat v n ctr
    rw [h1] at this
    exact this
  · intro dmn v2 c2 h3
    have hspec := Variable.d_wf_spec v m ctr hwf
    rw [h2] at hspec
    have horder : dm.order = m := hspec.2.1
    unfold Derivative.d at h3
    rw [horder] at h3
    have := Variable.d_repeat vm (m + n) cm
    rw [h3] at this
    exact this

/-- C9 witness: concrete run on a fresh variable `y`, `m = 1`, `n = 2`. -/
theorem derivative_cache_identity_and_additivity_witness :
    cacheWF ⟨0, "y", none, []⟩ ∧ (0 : Int) < 1 ∧ (0 : Int) < 2
    ∧ ((Variable.d ⟨0, "y", none, []⟩ 2 0 = (⟨0, 2, 0⟩,
          ⟨0, "y", none, [(2, ⟨0, 2, 0⟩)]⟩, 1))
      ∧ Variable.d ⟨0, "y", none, []⟩ 1 0 = (⟨0, 1, 0⟩,
          ⟨0, "y", none, [(1, ⟨0, 1, 0⟩)]⟩, 1))
    ∧ (Variable.d ⟨0, "y", none, [(2, ⟨0, 2, 0⟩)]⟩ 2 1
        = (⟨0, 2, 0⟩, ⟨0, "y", none, [(2, ⟨0, 2, 0⟩)]⟩, 1)
      ∧ ∀ dmn v2 c2,
          Derivative.d ⟨0, 1, 0⟩ ⟨0, "y", none, [(1, ⟨0, 1, 0⟩)]⟩ 2 1
            = (dmn, v2, c2) →
          Variable.d v2 (1 + 2) c2 = (dmn, v2, c2)) :=
  ⟨by decide, by decide, by decide, ⟨by decide, by decide⟩,
    derivative_cache_identity_and_additivity ⟨0, "y", none, []⟩ 0 1 2
      (by decide) (by decide) (by decide)
      ⟨0, 2, 0⟩ ⟨0, "y", none, [(2, ⟨0, 2, 0⟩)]⟩ 1 (by decide)
      ⟨0, 1, 0⟩ ⟨0, "y", none, [(1, ⟨0, 1, 0⟩)]⟩ 1 (by decide)⟩

/-- C5 counterexample: for a concrete variable `y` (created by `var`),
`y.d(0)` is *not* equal to `y` — Python equality between a `Derivative`
and a `Variable` is `False` in both directions, so the claimed
`v.d(0) = v` fails. -/
theorem d_zero_not_variable_cex :
    pyEq (.derivObj ((var "y" none 0).1.d 0 1).1) (.varObj (var "y" none 0).1)
        = false
    ∧ pyEq (.varObj (var "y" none 0).1) (.derivObj ((var "y" none 0).1.d 0 1).1)
        = false :=
  ⟨rfl, rfl⟩

/-- C5 amended: two derivative references are equal iff they have the
same variable identity and the same order (for every order, in
particular orders ≥ 1); an order-0 derivative reference `v.d(0)` is a
`Derivative` object *unequal* to `v` itself (Variable/Derivative
comparisons always yield `False`), but it normalizes to the same IVP key
`(variable identity, level 0)` as the bare variable `v`. -/
theorem derivative_equality_characterisation
    (v : Variable) (ctr : Nat) (hwf : cacheWF v) :
    (∀ a b : Derivative, pyEq (.derivObj a) (.derivObj b) = true
        ↔ a.varId = b.varId ∧ a.order = b.order)
    ∧ (∀ (w : Variable) (d : Derivative),
        pyEq (.varObj w) (.derivObj d) = false
        ∧ pyEq (.derivObj d) (.varObj w) = false)
    ∧ normKey (.ofDeriv (v.d 0 ctr).1) = normKey (.ofVar v) := by
  refine ⟨fun a b => ?_, fun w d => ⟨rfl, rfl⟩, ?_⟩
  · simp [pyEq]
  · have hspec := Variable.d_wf_spec v 0 ctr hwf
    simp [normKey, hspec.1, hspec.2.1]

/-- C5 amended witness: concrete run on a fresh variable `y`. -/
theorem derivative_equality_characterisation_witness :
    cacheWF ⟨3, "y", none, []⟩
    ∧ normKey (.ofDeriv ((Variable.d ⟨3, "y", none, []⟩ 0 4).1))
        = normKey (.ofVar ⟨3, "y", none, []⟩) :=
  ⟨by decide,
    (derivative_equality_characterisation ⟨3, "y", none, []⟩ 4 (by decide)).2.2⟩

/-- `validate_ivp` normalizes and then runs the per-variable loop. -/
theorem validate_ivp_def {α : Type} (orders : List (Variable × Int))
    (ivp : List (IVPKey × α)) (t0 : Rat) :
    validate_ivp orders ivp t0 = checkVars (normalize_ivp ivp) orders := rfl

/-- The per-variable check accepts exactly when the provided levels are
exactly the required levels `0, …, order-1`. -/
theorem checkVarLevels_ok_iff (name : String) (provided : List Int) (order : Int) :
    checkVarLevels name provided order = .ok ()
      ↔ ∀ l : Int, l ∈ provided ↔ l ∈ requiredLevels order := by
  unfold checkVarLevels
  cases hm : missingLevels provided order with
  | cons l rest =>
      simp only [reduceCtorEq, false_iff, not_forall]
      refine ⟨l, ?_⟩
      have hl : l ∈ missingLevels provided order := by
        rw [hm]; exact List.mem_cons_self _ _
      unfold missingLevels at hl
      rw [List.mem_filter, decide_eq_true_eq] at hl
      intro hiff
      exact hl.2 (hiff.2 hl.1)
  | nil =>
      cases he : extraLevels provided order with
      | nil =>
          simp only [true_iff, iff_true]
          intro l
          constructor
          · intro hlp
            by_contra hlr
            have hmem : l ∈ extraLevels provided order := by
              unfold extraLevels
              rw [List.mem_filter, decide_eq_true_eq]
              exact ⟨hlp, hlr⟩
            rw [he] at hmem
            cases hmem
          · intro hlr
            by_contra hlp
            have hmem : l ∈ missingLevels provided order := by
              unfold missingLevels
              rw [List.mem_filter, decide_eq_true_eq]
              exact ⟨hlr, hlp⟩
            rw [hm] at hmem
            cases hmem
      | cons l rest =>
          simp only [reduceCtorEq, false_iff, not_forall]
          refine ⟨l, ?_⟩
          have hl : l ∈ extraLevels provided order := by
            rw [he]; exact List.mem_cons_self _ _
          unfold extraLevels at hl
          rw [List.mem_filter, decide_eq_true_eq] at hl
          intro hiff
          exact hl.2 (hiff.1 hl.1)

/-- The per-variable check only ever raises the missing-condition or the
overdetermined error, with the data `validate_ivp` interpolates. -/
theorem checkVarLevels_error_shape (name : String) (provided : List Int)
    (order : Int) (e : OdecastError)
    (h : checkVarLevels name provided order = .error e) :
    (∃ l, e = .missingInitialCondition name l order)
    ∨ e = .overdeterminedConditions name (sortLevels provided) order := by
  unfold checkVarLevels at h
  cases hm : missingLevels provided order with
  | cons l rest =>
      rw [hm] at h
      simp only [Except.error.injEq] at h
      exact Or.inl ⟨l, h.symm⟩
  | nil =>
      rw [hm] at h
      cases he : extraLevels provided order with
      | nil => rw [he] at h; cases h
      | cons l rest =>
          rw [he] at h
          simp only [Except.error.injEq] at h
          exact Or.inr h.symm

/-- The loop accepts iff every entry of the order map passes its
per-variable check. -/
theorem checkVars_ok_iff {α : Type} (normalized : List ((Nat × Int) × α))
    (orders : List (Variable × Int)) :
    checkVars normalized orders = .ok ()
      ↔ ∀ p ∈ orders, checkVar normalized p.1 p.2 = .ok () := by
  induction orders with
  | nil => simp [checkVars]
  | cons p rest ih =>
      obtain ⟨v, k⟩ := p
      unfold checkVars
      cases hc : checkVar normalized v k with
      | ok u =>
          cases u
          simpa [hc] using ih
      | error e => simp [hc]

/-- The loop either accepts or stops at the first failing variable with
one of the two validation errors. -/
theorem checkVars_cases {α : Type} (normalized : List ((Nat × Int) × α))
    (orders : List (Variable × Int)) :
    checkVars normalized orders = .ok ()
    ∨ (∃ nm l k, checkVars normalized orders
        = .error (.missingInitialCondition nm l k))
    ∨ (∃ nm pr k, checkVars normalized orders
        = .error (.overdeterminedConditions nm pr k)) := by
  induction orders with
  | nil => exact Or.inl rfl
  | cons p rest ih =>
      obtain ⟨v, k⟩ := p
      unfold checkVars
      cases hc : checkVar normalized v k with
      | ok u =>
          cases u
          simpa [hc] using ih
      | error e =>
          rcases checkVarLevels_error_shape v.name _ k e hc with ⟨l, rfl⟩ | rfl
          · exact Or.inr (Or.inl ⟨v.name, l, k, by simp [hc]⟩)
          · exact Or.inr (Or.inr
              ⟨v.name, sortLevels (varConditionLevels normalized v.id), k,
                by simp [hc]⟩)

/-- C1: `validate_ivp` accepts exactly when, for every variable of the
order map of order `k`, the provided levels are exactly `0, …, k-1`; and
it is total — it either accepts or fails with exactly one of
`MissingInitialConditionError` / `OverdeterminedConditionsError`, never
another error.  (The `TypeError` branch of `normalize_ivp` is
unreachable for arguments of the declared key type.) -/
theorem validate_ivp_ok_iff_exact_coverage {α : Type}
    (orders : List (Variable × Int)) (ivp : List (IVPKey × α)) (t0 : Rat) :
    (validate_ivp orders ivp t0 = .ok ()
      ↔ ∀ p ∈ orders, ∀ l : Int,
          l ∈ varConditionLevels (normalize_ivp ivp) p.1.id
            ↔ l ∈ requiredLevels p.2)
    ∧ (validate_ivp orders ivp t0 = .ok ()
      ∨ (∃ nm l k, validate_ivp orders ivp t0
          = .error (.missingInitialCondition nm l k))
      ∨ (∃ nm pr k, validate_ivp orders ivp t0
          = .error (.overdeterminedConditions nm pr k))) := by
  rw [validate_ivp_def]
  constructor
  · rw [checkVars_ok_iff]
    exact forall₂_congr fun p _ =>
      checkVarLevels_ok_iff p.1.name (varConditionLevels (normalize_ivp ivp) p.1.id) p.2
  · exact checkVars_cases (normalize_ivp ivp) orders

/-- C2 counterexample: the claim fails in both directions at concrete
inputs.  (1) For `x` of order 2 with the single condition `x.d(5)`,
level 5 lies outside `{0, 1}`, yet `validate_ivp` raises the *missing*
error (naming level 0), not the overdetermined error, because the
missing check runs first.  (2) For `y` of order 1 with both a
bare-variable entry and an order-0 derivative entry (duplicate coverage
of level 0), normalization silently collapses the two entries into one
`(y, 0)` key and `validate_ivp` accepts — no error at all. -/
theorem overdetermined_claim_cex :
    ((5 : Int) ∉ requiredLevels 2
      ∧ (5 : Int) ∈ varConditionLevels
          (normalize_ivp [(IVPKey.ofDeriv ⟨0, 5, 7⟩, (1 : Int))]) 0
      ∧ validate_ivp [((⟨0, "x", none, []⟩ : Variable), (2 : Int))]
          [(IVPKey.ofDeriv ⟨0, 5, 7⟩, (1 : Int))] 0
          = .error (.missingInitialCondition "x" 0 2))
    ∧ validate_ivp [((⟨1, "y", none, []⟩ : Variable), (1 : Int))]
        [(IVPKey.ofVar ⟨1, "y", none, []⟩, (1 : Int)),
          (IVPKey.ofDeriv ⟨1, 0, 8⟩, (2 : Int))] 0
        = .ok () := by
  refine ⟨⟨by decide, by decide, ?_⟩, ?_⟩ <;> rfl

/-- The loop raises the overdetermined error as soon as every entry is
free of missing levels and some entry has an extra level. -/
theorem checkVars_overdetermined {α : Type} (normalized : List ((Nat × Int) × α)) :
    ∀ orders : List (Variable × Int),
      (∀ p ∈ orders, missingLevels (varConditionLevels normalized p.1.id) p.2 = []) →
      (∃ p ∈ orders, extraLevels (varConditionLevels normalized p.1.id) p.2 ≠ []) →
      ∃ nm pr k, checkVars normalized orders
        = .error (.overdeterminedConditions nm pr k) := by
  intro orders
  induction orders with
  | nil =>
      intro _ hex
      obtain ⟨p, hp, _⟩ := hex
      cases hp
  | cons q rest ih =>
      intro hcov hex
      obtain ⟨v, k⟩ := q
      have hq := hcov (v, k) (List.mem_cons_self _ _)
      unfold checkVars checkVar checkVarLevels
      rw [hq]
      cases he : extraLevels (varConditionLevels normalized v.id) k with
      | cons l tail =>
          exact ⟨v.name, sortLevels (varConditionLevels normalized v.id), k, rfl⟩
      | nil =>
          simp only
          refine ih (fun p hp => hcov p (List.mem_cons_of_mem _ hp)) ?_
          obtain ⟨p, hp, hne⟩ := hex
          rcases List.mem_cons.mp hp with rfl | hp'
          · exact absurd he hne
          · exact ⟨p, hp', hne⟩

/-- C2 amended: *provided every variable of the order map has all its
required levels present*, if some variable additionally has a provided
level outside `{0, …, k-1}` (a level ≥ k or a negative level), then
`validate_ivp` raises the overdetermined-conditions error.  (Without
full coverage the missing-condition error wins, and a duplicate
bare-variable / order-0-derivative pair is collapsed by normalization
before validation, raising nothing — see the counterexample.) -/
theorem overdetermined_raised_when_fully_covered {α : Type}
    (orders : List (Variable × Int)) (ivp : List (IVPKey × α)) (t0 : Rat)
    (hcov : ∀ p ∈ orders,
      missingLevels (varConditionLevels (normalize_ivp ivp) p.1.id) p.2 = [])
    (hex : ∃ p ∈ orders,
      extraLevels (varConditionLevels (normalize_ivp ivp) p.1.id) p.2 ≠ []) :
    ∃ nm pr k, validate_ivp orders ivp t0
      = .error (.overdeterminedConditions nm pr k) := by
  rw [validate_ivp_def]
  exact checkVars_overdetermined (normalize_ivp ivp) orders hcov hex

/-- C2 amended witness: `x` of order 1 with conditions at levels 0 and 3
raises the overdetermined error. -/
theorem overdetermined_raised_when_fully_covered_witness :
    (∀ p ∈ [((⟨0, "x", none, []⟩ : Variable), (1 : Int))],
      missingLevels (varConditionLevels
        (normalize_ivp [(IVPKey.ofVar ⟨0, "x", none, []⟩, (1 : Int)),
          (IVPKey.ofDeriv ⟨0, 3, 9⟩, (2 : Int))]) p.1.id) p.2 = [])
    ∧ (∃ p ∈ [((⟨0, "x", none, []⟩ : Variable), (1 : Int))],
      extraLevels (varConditionLevels
        (normalize_ivp [(IVPKey.ofVar ⟨0, "x", none, []⟩, (1 : Int)),
          (IVPKey.ofDeriv ⟨0, 3, 9⟩, (2 : Int))]) p.1.id) p.2 ≠ [])
    ∧ ∃ nm pr k,
        validate_ivp [((⟨0, "x", none, []⟩ : Variable), (1 : Int))]
          [(IVPKey.ofVar ⟨0, "x", none, []⟩, (1 : Int)),
            (IVPKey.ofDeriv ⟨0, 3, 9⟩, (2 : Int))] 0
          = .error (.overdeterminedConditions nm pr k) :=
  ⟨by decide, by decide,
    overdetermined_raised_when_fully_covered _ _ 0 (by decide) (by decide)⟩

/-- C3 counterexample: `a` (order 1, conditions at levels 0 and 1 —
overdetermined) precedes `x` (order 2, no conditions — missing level 0)
in the order map.  The claim requires a `MissingInitialCondition` error,
but the loop reaches the overdetermined variable `a` first and raises
`OverdeterminedConditionsError` instead. -/
theorem missing_claim_cex :
    (0 : Int) ∈ missingLevels
        (varConditionLevels
          (normalize_ivp [(IVPKey.ofVar ⟨0, "a", none, []⟩, (1 : Int)),
            (IVPKey.ofDeriv ⟨0, 1, 99⟩, (2 : Int))]) 1) 2
    ∧ validate_ivp
        [((⟨0, "a", none, []⟩ : Variable), (1 : Int)),
          ((⟨1, "x", none, []⟩ : Variable), (2 : Int))]
        [(IVPKey.ofVar ⟨0, "a", none, []⟩, (1 : Int)),
          (IVPKey.ofDeriv ⟨0, 1, 99⟩, (2 : Int))] 0
        = .error (.overdeterminedConditions "a" [0, 1] 1) :=
  ⟨by decide, rfl⟩

/-- The required levels are listed in strictly increasing order. -/
theorem requiredLevels_sorted (k : Int) :
    (requiredLevels k).Pairwise (· < ·) := by
  unfold requiredLevels
  exact List.Pairwise.map (fun i : Nat => (i : Int))
    (fun a b h => by simpa using h) (List.pairwise_lt_range k.toNat)

/-- Passing the head of the order map advances the loop. -/
theorem checkVars_cons_ok {α : Type} (normalized : List ((Nat × Int) × α))
    (v : Variable) (k : Int) (rest : List (Variable × Int))
    (h : checkVar normalized v k = .ok ()) :
    checkVars normalized ((v, k) :: rest) = checkVars normalized rest := by
  show (match checkVar normalized v k with
        | .ok _ => checkVars normalized rest
        | .error e => .error e) = checkVars normalized rest
  rw [h]

/-- A failing head of the order map stops the loop with its error. -/
theorem checkVars_cons_error {α : Type} (normalized : List ((Nat × Int) × α))
    (v : Variable) (k : Int) (rest : List (Variable × Int)) (e : OdecastError)
    (h : checkVar normalized v k = .error e) :
    checkVars normalized ((v, k) :: rest) = .error e := by
  show (match checkVar normalized v k with
        | .ok _ => checkVars normalized rest
        | .error e => .error e) = .error e
  rw [h]

/-- If every variable before `(v, k)` passes and `v` has a missing
level, the loop raises the missing error for `v` at the head of its
missing-level list. -/
theorem checkVars_missing_first {α : Type} (normalized : List ((Nat × Int) × α))
    (post : List (Variable × Int)) (v : Variable) (k : Int) (l : Int)
    (tail : List Int)
    (hmiss : missingLevels (varConditionLevels normalized v.id) k = l :: tail) :
    ∀ pre : List (Variable × Int),
      (∀ p ∈ pre, checkVar normalized p.1 p.2 = .ok ()) →
      checkVars normalized (pre ++ (v, k) :: post)
        = .error (.missingInitialCondition v.name l k) := by
  intro pre
  induction pre with
  | nil =>
      intro _
      rw [List.nil_append]
      refine checkVars_cons_error normalized v k post _ ?_
      unfold checkVar checkVarLevels
      rw [hmiss]
  | cons q qrest ih =>
      intro hpre
      obtain ⟨w, j⟩ := q
      have hw := hpre (w, j) (List.mem_cons_self _ _)
      rw [List.cons_append, checkVars_cons_ok normalized w j _ hw]
      exact ih (fun p hp => hpre p (List.mem_cons_of_mem _ hp))

/-- C3 amended: if a variable `(v, k)` of the order map is missing a
required level and *every variable listed before it passes validation*,
then `validate_ivp` raises `MissingInitialConditionError` naming `v` and
its lowest absent level (the head of the increasing missing-level list).
Without the proviso an overdetermined variable earlier in the order map
wins — see the counterexample. -/
theorem missing_reported_lowest_level {α : Type}
    (pre post : List (Variable × Int)) (v : Variable) (k : Int)
    (ivp : List (IVPKey × α)) (t0 : Rat) (l : Int) (tail : List Int)
    (hpre : ∀ p ∈ pre, checkVar (normalize_ivp ivp) p.1 p.2 = .ok ())
    (hmiss : missingLevels (varConditionLevels (normalize_ivp ivp) v.id) k
      = l :: tail) :
    validate_ivp (pre ++ (v, k) :: post) ivp t0
        = .error (.missingInitialCondition v.name l k)
    ∧ ∀ l' ∈ missingLevels (varConditionLevels (normalize_ivp ivp) v.id) k,
        l ≤ l' := by
  constructor
  · rw [validate_ivp_def]
    exact checkVars_missing_first (normalize_ivp ivp) post v k l tail hmiss pre hpre
  · have hs : (missingLevels (varConditionLevels (normalize_ivp ivp) v.id) k).Pairwise
        (· < ·) := by
      unfold missingLevels
      exact (requiredLevels_sorted k).filter _
    rw [hmiss] at hs ⊢
    intro l' hl'
    rcases List.mem_cons.mp hl' with rfl | h'
    · exact le_refl l'
    · exact le_of_lt ((List.pairwise_cons.mp hs).1 l' h')

/-- C3 amended witness: the spec's own example — a 2nd-order `x` with
only `x(0)` supplied; level 1 (the condition `x'(0)`) is reported. -/
theorem missing_reported_lowest_level_witness :
    (∀ p ∈ ([] : List (Variable × Int)),
      checkVar (normalize_ivp [(IVPKey.ofVar ⟨0, "x", none, []⟩, (1 : Int))])
        p.1 p.2 = .ok ())
    ∧ missingLevels
        (varConditionLevels
          (normalize_ivp [(IVPKey.ofVar ⟨0, "x", none, []⟩, (1 : Int))]) 0) 2
        = [1]
    ∧ (validate_ivp [((⟨0, "x", none, []⟩ : Variable), (2 : Int))]
          [(IVPKey.ofVar ⟨0, "x", none, []⟩, (1 : Int))] 0
          = .error (.missingInitialCondition "x" 1 2)
      ∧ ∀ l' ∈ missingLevels
          (varConditionLevels
            (normalize_ivp [(IVPKey.ofVar ⟨0, "x", none, []⟩, (1 : Int))]) 0) 2,
          (1 : Int) ≤ l') :=
  ⟨by simp, by decide,
    missing_reported_lowest_level [] [] ⟨0, "x", none, []⟩ 2
      [(IVPKey.ofVar ⟨0, "x", none, []⟩, (1 : Int))] 0 1 []
      (by simp) (by decide)⟩

/-- Inserting a binding for a different variable does not change the
levels collected for `vid`. -/
theorem varConditionLevels_dictInsert_ne {α : Type} (k : Nat × Int) (val : α)
    (d : List ((Nat × Int) × α)) (vid : Nat) (h : k.1 ≠ vid) :
    varConditionLevels (dictInsert k val d) vid = varConditionLevels d vid := by
  induction d with
  | nil => simp [dictInsert, varConditionLevels, h]
  | cons e rest ih =>
      obtain ⟨k', v'⟩ := e
      unfold dictInsert
      by_cases hk : k' = k
      · subst hk
        rw [if_pos rfl]
        unfold varConditionLevels
        simp [List.filter_cons, h]
      · rw [if_neg hk]
        unfold varConditionLevels at ih ⊢
        by_cases hv : k'.1 = vid
        · simp [List.filter_cons, hv, ih]
        · simp [List.filter_cons, hv, ih]

/-- Folding in bindings only for variables other than `vid` leaves the
levels collected for `vid` unchanged. -/
theorem varConditionLevels_foldl_ne {α : Type} (vid : Nat) :
    ∀ (extra : List (IVPKey × α)) (base : List ((Nat × Int) × α)),
      (∀ kv ∈ extra, ivpKeyVarId kv.1 ≠ vid) →
      varConditionLevels
          (extra.foldl (fun acc kv => dictInsert (normKey kv.1) kv.2 acc) base) vid
        = varConditionLevels base vid
  | [], _, _ => rfl
  | kv :: tail, base, h => by
      rw [List.foldl_cons]
      rw [varConditionLevels_foldl_ne vid tail _
        (fun kv' h' => h kv' (List.mem_cons_of_mem _ h'))]
      exact varConditionLevels_dictInsert_ne _ _ _ _
        (h kv (List.mem_cons_self _ _))

/-- Appending IVP entries only for variables other than `vid` leaves the
normalized levels of `vid` unchanged. -/
theorem varConditionLevels_normalize_append {α : Type}
    (ivp extra : List (IVPKey × α)) (vid : Nat)
    (h : ∀ kv ∈ extra, ivpKeyVarId kv.1 ≠ vid) :
    varConditionLevels (normalize_ivp (ivp ++ extra)) vid
      = varConditionLevels (normalize_ivp ivp) vid := by
  unfold normalize_ivp
  rw [List.foldl_append]
  exact varConditionLevels_foldl_ne vid extra _ h

/-- The loop's verdict depends on the normalized dict only through the
per-variable level lists. -/
theorem checkVars_congr {α β : Type} (n1 : List ((Nat × Int) × α))
    (n2 : List ((Nat × Int) × β)) :
    ∀ orders : List (Variable × Int),
      (∀ p ∈ orders, varConditionLevels n1 p.1.id = varConditionLevels n2 p.1.id) →
      checkVars n1 orders = checkVars n2 orders
  | [], _ => rfl
  | (v, k) :: rest, h => by
      have hv : checkVar n1 v k = checkVar n2 v k := by
        unfold checkVar
        rw [h (v, k) (List.mem_cons_self _ _)]
      cases hc : checkVar n2 v k with
      | ok u =>
          cases u
          rw [checkVars_cons_ok n1 v k rest (hv.trans hc),
            checkVars_cons_ok n2 v k rest hc]
          exact checkVars_congr n1 n2 rest
            (fun p hp => h p (List.mem_cons_of_mem _ hp))
      | error e =>
          rw [checkVars_cons_error n1 v k rest e (hv.trans hc),
            checkVars_cons_error n2 v k rest e hc]

/-- C10: `validate_ivp` checks coverage only for the variables of the
order map — appending initial conditions keyed by any variables (or
derivatives of variables) absent from the order map changes nothing: the
verdict, accepting or erroring, is identical to the one without them, so
such entries are silently ignored and never cause an overdetermined or
any other error. -/
theorem validate_ivp_ignores_unknown_variables {α : Type}
    (orders : List (Variable × Int)) (ivp extra : List (IVPKey × α)) (t0 : Rat)
    (h : ∀ kv ∈ extra, ∀ p ∈ orders, ivpKeyVarId kv.1 ≠ p.1.id) :
    validate_ivp orders (ivp ++ extra) t0 = validate_ivp orders ivp t0 := by
  rw [validate_ivp_def, validate_ivp_def]
  refine checkVars_congr _ _ orders (fun p hp => ?_)
  exact varConditionLevels_normalize_append ivp extra p.1.id
    (fun kv hkv => h kv hkv p hp)

/-- C10 witness: an order map for `x` only; appending conditions for an
unrelated variable `z` (identity 5) and a derivative of another unknown
variable (identity 7) leaves the verdict unchanged. -/
theorem validate_ivp_ignores_unknown_variables_witness :
    (∀ kv ∈ [(IVPKey.ofVar ⟨5, "z", none, []⟩, (3 : Int)),
        (IVPKey.ofDeriv ⟨7, 2, 0⟩, (4 : Int))],
      ∀ p ∈ [((⟨0, "x", none, []⟩ : Variable), (1 : Int))],
        ivpKeyVarId kv.1 ≠ p.1.id)
    ∧ validate_ivp [((⟨0, "x", none, []⟩ : Variable), (1 : Int))]
        ([(IVPKey.ofVar ⟨0, "x", none, []⟩, (1 : Int))]
          ++ [(IVPKey.ofVar ⟨5, "z", none, []⟩, (3 : Int)),
            (IVPKey.ofDeriv ⟨7, 2, 0⟩, (4 : Int))]) 0
      = validate_ivp [((⟨0, "x", none, []⟩ : Variable), (1 : Int))]
        [(IVPKey.ofVar ⟨0, "x", none, []⟩, (1 : Int))] 0 :=
  ⟨by decide,
    validate_ivp_ignores_unknown_variables _ _ _ 0 (by decide)⟩

end Odecast
